import Mathlib

/-!
Shallow embedding of the birthday_display program (src/main.rs, src/csv.rs).

The program reads people from a CSV file, keeps the full record list
(`all_birthdays`, a vector of reference-counted records) and a derived
subset (`birthdays_today`) of records whose birthday matches the current
day and month, and applies asynchronous photo-fetch results to records
by URL.

Modelling choices, each from the source:
- `chrono::NaiveDate` is a (year, month, day) triple; `update_day` only
  reads `day()` and `month()`.
- `Rc<Birthday>` sharing: `birthdays_today` in the source holds clones of
  the `Rc` pointers stored in `all_birthdays`, and `image_data` is an
  interior-mutable cell, so a write through `all_birthdays` is visible
  through `birthdays_today`. The embedding represents each shared pointer
  by its position in `all_birthdays`: `birthdays_today : List Nat` holds
  indices, and `today_records` dereferences them against the current
  `all_birthdays`.
- `RefCell<Option<Result<Handle, String>>>` becomes
  `Option (Except String Handle)`: `none` is Unloaded, `.ok` is Loaded,
  `.error` is Failed.
- External collaborators (HTTP transport, CSV decoder, file system) are
  parameters: the per-request transport outcome, the per-row decode
  result, and the file-open result are inputs to the embedded functions.
-/

/-- chrono date: `update_day` uses only `day()` and `month()`. -/
structure NaiveDate where
  year : Int
  month : Nat
  day : Nat
deriving DecidableEq, Repr

/-- iced image handle wrapping raw bytes. -/
structure Handle where
  data : List Nat
deriving DecidableEq, Repr

/-- Rust `Handle::from_memory`: wraps the byte payload. -/
def Handle.from_memory (bytes : List Nat) : Handle := ⟨bytes⟩

deriving instance DecidableEq for Except

/-- The `Birthday` record of src/main.rs. `image_data` models the
`RefCell<Option<Result<Handle, String>>>` field: `none` is Unloaded. -/
structure Birthday where
  last_name : String
  first_name : String
  birthday : NaiveDate
  gender : Char
  image_url : Option String
  image_data : Option (Except String Handle)
deriving DecidableEq, Repr

/-- The `Message` enum of src/main.rs. `UpdateDay` carries the timer
instant; the handler reads the current date, which we attach here. -/
inductive Message where
  | UpdateDay (now : NaiveDate)
  | DataReceived (image_data : Except String Handle) (orig_url : String)
deriving DecidableEq, Repr

/-- The `BirthdayDisplay` state: `birthdays_today` holds the positions in
`all_birthdays` of the shared records (the `Rc` clones of the source). -/
structure BirthdayDisplay where
  all_birthdays : List Birthday
  birthdays_today : List Nat
deriving DecidableEq, Repr

/-- The loop test of `update_day`: day and month match, year ignored. -/
def is_today (today : NaiveDate) (b : Birthday) : Bool :=
  b.birthday.day == today.day && b.birthday.month == today.month

/-- The loop test of `update_day` applied at position `i`. -/
def idx_is_today (l : List Birthday) (today : NaiveDate) (i : Nat) : Bool :=
  match l[i]? with
  | some b => is_today today b
  | none => false

/-- Rust `BirthdayDisplay::update_day`: rebuild `birthdays_today` from scratch
by scanning `all_birthdays` in order and pushing each matching record. -/
def BirthdayDisplay.update_day (s : BirthdayDisplay) (today : NaiveDate) :
    BirthdayDisplay :=
  { s with birthdays_today :=
      (List.range s.all_birthdays.length).filter (idx_is_today s.all_birthdays today) }

/-- One record as seen through the `DataReceived` arm of
`BirthdayDisplay::update`: if `image_url` equals the message URL the
`image_data` cell is replaced, otherwise the record is untouched. -/
def apply_result (image_data : Except String Handle) (url : Option String)
    (b : Birthday) : Birthday :=
  if b.image_url == url then { b with image_data := some image_data } else b

/-- Rust `BirthdayDisplay::update`. -/
def BirthdayDisplay.update (s : BirthdayDisplay) (m : Message) : BirthdayDisplay :=
  match m with
  | .UpdateDay now => s.update_day now
  | .DataReceived image_data orig_url =>
      { s with all_birthdays :=
          s.all_birthdays.map (apply_result image_data (some orig_url)) }

/-- The records the view iterates: dereference the shared pointers of
`birthdays_today` against the current `all_birthdays`. -/
def BirthdayDisplay.today_records (s : BirthdayDisplay) : List Birthday :=
  s.birthdays_today.filterMap fun i => s.all_birthdays[i]?

/-- Fate of one outbound request, decided by the external transport:
`send` fails, `error_for_status` rejects the status, reading the payload
fails, or a full byte payload arrives. -/
inductive HttpOutcome where
  | send_error (e : String)
  | status_error (e : String)
  | bytes_error (e : String)
  | success (bytes : List Nat)
deriving DecidableEq, Repr

/-- Rust `request_birthday_image`: collapse the three failure sources then wrap
bytes in a handle or produce the constant placeholder string. -/
def request_birthday_image (outcome : HttpOutcome) (orig_url : String) :
    Except String Handle × String :=
  let result : Except String (List Nat) :=
    match outcome with
    | .send_error e => .error e
    | .status_error e => .error e
    | .bytes_error e => .error e
    | .success bytes => .ok bytes
  let image_data : Except String Handle :=
    match result with
    | .ok bytes => .ok (Handle.from_memory bytes)
    | .error _ => .error "[failed to load image]"
  (image_data, orig_url)

/-- The five input fields of one CSV row, as decoded by serde. -/
structure RowFields where
  last_name : String
  first_name : String
  birthday : NaiveDate
  gender : Char
  image_url : Option String
deriving DecidableEq, Repr

/-- Record built from a decoded row: the serde skip attribute makes
`image_data` default to `none` (Unloaded). -/
def mk_birthday (r : RowFields) : Birthday :=
  { last_name := r.last_name, first_name := r.first_name,
    birthday := r.birthday, gender := r.gender,
    image_url := r.image_url, image_data := none }

/-- The deserialize loop of `get_birthdays`: push each well-formed row,
emit one stderr diagnostic per failed row and continue. Returns the
accumulated records and the emitted diagnostics. -/
def process_rows : List (Except String RowFields) → List Birthday × List String
  | [] => ([], [])
  | .ok r :: rest =>
      let p := process_rows rest
      (mk_birthday r :: p.1, p.2)
  | .error e :: rest =>
      let p := process_rows rest
      (p.1, ("error reading line: " ++ e) :: p.2)

/-- Rust `get_birthdays` of src/csv.rs: `open_result` is the outcome of
`ReaderBuilder::from_path` (the file system is external); on success the
row results are processed, a per-row failure never aborts the load. -/
def get_birthdays (open_result : Except String (List (Except String RowFields))) :
    Except String (List Birthday) × List String :=
  match open_result with
  | .error e => (.error e, [])
  | .ok rows =>
      let p := process_rows rows
      (.ok p.1, p.2)

/-- The reqwest client, opaque here. -/
inductive Client where
  | mk
deriving DecidableEq, Repr

/-- The `loadable_elements` filter of `BirthdayDisplay::new`. -/
def loadable_elements (birthdays : List Birthday) : List Birthday :=
  birthdays.filter fun b => b.image_url.isSome

/-- The client match of `BirthdayDisplay::new`: no loadable element means
no client is built at all; otherwise `build_result` is the outcome of
`Client::builder().build().ok()`. -/
def reqwest_client (birthdays : List Birthday) (build_result : Option Client) :
    Option Client :=
  match (loadable_elements birthdays).length with
  | 0 => none
  | _ + 1 => build_result

/-- The URLs for which `BirthdayDisplay::new` issues one request each:
none when no client exists, otherwise one per loadable record in order. -/
def startup_requests (birthdays : List Birthday) (build_result : Option Client) :
    List String :=
  match reqwest_client birthdays build_result with
  | none => []
  | some _ => (loadable_elements birthdays).filterMap fun b => b.image_url

/-- The state part of `BirthdayDisplay::new`: store the loaded records and
run `update_day` once with the startup date. -/
def BirthdayDisplay.new (birthdays : List Birthday) (today : NaiveDate) :
    BirthdayDisplay :=
  BirthdayDisplay.update_day
    { all_birthdays := birthdays, birthdays_today := [] } today

/-- A run of the event loop: fold `update` over the delivered messages. -/
def run (s : BirthdayDisplay) (ms : List Message) : BirthdayDisplay :=
  ms.foldl BirthdayDisplay.update s

/-- The URLs of the `DataReceived` messages of a trace, in arrival order. -/
def data_urls : List Message → List String
  | [] => []
  | .DataReceived _ url :: rest => url :: data_urls rest
  | .UpdateDay _ :: rest => data_urls rest

/-- Whether processing a message writes the `image_data` cell of a record
with the given fields. -/
def writes_to (b : Birthday) : Message → Bool
  | .DataReceived _ url => b.image_url == some url
  | .UpdateDay _ => false

/-- How many messages of a trace write the record. -/
def writes_count (b : Birthday) (ms : List Message) : Nat :=
  (ms.filter (writes_to b)).length

/-- Model of the argument handling in `BirthdayDisplay::new`: anything
but exactly one positional argument prints usage and exits 1; the single
argument is the file path unless it is the literal help flag. -/
inductive CliAction where
  | usage_exit1
  | help_exit0
  | load (path : String)
deriving DecidableEq, Repr

def parse_args (args : List String) : CliAction :=
  if args.length != 2 then .usage_exit1
  else if args[1]! == "--help" || args[1]! == "-h" then .help_exit0
  else .load args[1]!

/-! ## Basic equations -/

theorem update_day_all_birthdays (s : BirthdayDisplay) (t : NaiveDate) :
    (s.update_day t).all_birthdays = s.all_birthdays := rfl

theorem update_day_birthdays_today (s : BirthdayDisplay) (t : NaiveDate) :
    (s.update_day t).birthdays_today =
      (List.range s.all_birthdays.length).filter (idx_is_today s.all_birthdays t) :=
  rfl

theorem filterMap_range_idx (t : NaiveDate) (l : List Birthday) :
    ((List.range l.length).filter (idx_is_today l t)).filterMap
        (fun i => l[i]?) =
      l.filter (is_today t) := by
  induction l with
  | nil => rfl
  | cons a l ih =>
    have hcomp : idx_is_today (a :: l) t ∘ Nat.succ = idx_is_today l t := by
      funext i
      simp [Function.comp, idx_is_today, List.getElem?_cons_succ]
    have hget : ((fun i => (a :: l)[i]?) ∘ Nat.succ) = (fun i : Nat => l[i]?) := by
      funext i
      simp [Function.comp, List.getElem?_cons_succ]
    rw [List.length_cons, List.range_succ_eq_map, List.filter_cons,
      List.filter_map, hcomp]
    by_cases h : is_today t a
    · have h0 : idx_is_today (a :: l) t 0 = true := by
        simp [idx_is_today, h]
      rw [h0, if_pos rfl, List.filterMap_cons]
      simp only [List.getElem?_cons_zero]
      rw [List.filterMap_map, hget, ih, List.filter_cons]
      simp [h]
    · have h0 : idx_is_today (a :: l) t 0 = false := by
        simp [idx_is_today, h]
      rw [h0, if_neg (by simp), List.filterMap_map, hget, ih, List.filter_cons]
      simp [h]

theorem today_records_update_day (s : BirthdayDisplay) (t : NaiveDate) :
    (s.update_day t).today_records = s.all_birthdays.filter (is_today t) :=
  filterMap_range_idx t s.all_birthdays

/-! ## C1 -/

/-- C1: for a fixed current date, the today subset rebuilt by `update_day`
contains a stored record exactly when the record's birthday has the same
day and the same month as the current date, the year being ignored. -/
theorem C1_update_day_membership (s : BirthdayDisplay) (today : NaiveDate)
    (b : Birthday) (hb : b ∈ s.all_birthdays) :
    b ∈ (s.update_day today).today_records ↔
      (b.birthday.day = today.day ∧ b.birthday.month = today.month) := by
  rw [today_records_update_day, List.mem_filter]
  simp [hb, is_today]

def jane : Birthday :=
  mk_birthday ⟨"Doe", "Jane", ⟨1990, 6, 1⟩, 'f', none⟩

def s_jane : BirthdayDisplay :=
  { all_birthdays := [jane], birthdays_today := [] }

def june1 : NaiveDate := ⟨2024, 6, 1⟩

/-- Witness for C1 at a concrete record and date. -/
theorem C1_update_day_membership_witness :
    jane ∈ s_jane.all_birthdays ∧
      (jane ∈ (s_jane.update_day june1).today_records ↔
        (jane.birthday.day = june1.day ∧ jane.birthday.month = june1.month)) :=
  ⟨by decide, C1_update_day_membership s_jane june1 jane (by decide)⟩

/-! ## C8 -/

/-- C8: `update_day` is idempotent, and its result depends only on the
current date and the records' birthday fields, not on the previous value
of the today subset. -/
theorem C8_update_day_idempotent (s s2 : BirthdayDisplay) (today : NaiveDate)
    (h : s.all_birthdays.map Birthday.birthday =
      s2.all_birthdays.map Birthday.birthday) :
    (s.update_day today).update_day today = s.update_day today ∧
      (s.update_day today).birthdays_today =
        (s2.update_day today).birthdays_today := by
  constructor
  · rfl
  · have hlen : s.all_birthdays.length = s2.all_birthdays.length := by
      have h2 := congrArg List.length h
      simpa using h2
    have hidx : ∀ i, idx_is_today s.all_birthdays today i =
        idx_is_today s2.all_birthdays today i := by
      intro i
      have hi : s.all_birthdays[i]?.map Birthday.birthday =
          s2.all_birthdays[i]?.map Birthday.birthday := by
        rw [← List.getElem?_map, ← List.getElem?_map, h]
      unfold idx_is_today
      cases h1 : s.all_birthdays[i]? with
      | none =>
        cases h2 : s2.all_birthdays[i]? with
        | none => rfl
        | some b2 => rw [h1, h2] at hi; simp at hi
      | some b1 =>
        cases h2 : s2.all_birthdays[i]? with
        | none => rw [h1, h2] at hi; simp at hi
        | some b2 =>
          rw [h1, h2] at hi
          simp at hi
          simp [is_today, hi]
    rw [update_day_birthdays_today, update_day_birthdays_today, hlen]
    exact List.filter_congr (fun i _ => hidx i)

def s_jane2 : BirthdayDisplay :=
  { all_birthdays := [jane], birthdays_today := [0] }

/-- Witness for C8: two states sharing the birthday fields but with
different previous today subsets. -/
theorem C8_update_day_idempotent_witness :
    s_jane.all_birthdays.map Birthday.birthday =
        s_jane2.all_birthdays.map Birthday.birthday ∧
      ((s_jane.update_day june1).update_day june1 = s_jane.update_day june1 ∧
        (s_jane.update_day june1).birthdays_today =
          (s_jane2.update_day june1).birthdays_today) :=
  ⟨rfl, C8_update_day_idempotent s_jane s_jane2 june1 rfl⟩

/-! ## C2 -/

/-- C2: applying an incoming fetch result sets the photo state of every
record whose `image_url` equals the result's URL to that result —
overwriting any previous Loaded or Failed state — and leaves every other
record unchanged. -/
theorem C2_data_received_pointwise (s : BirthdayDisplay)
    (d : Except String Handle) (u : String) (i : Nat) (b : Birthday)
    (h : s.all_birthdays[i]? = some b) :
    (s.update (.DataReceived d u)).all_birthdays[i]? =
      some (if b.image_url = some u then { b with image_data := some d }
        else b) := by
  show (s.all_birthdays.map (apply_result d (some u)))[i]? = _
  rw [List.getElem?_map, h]
  by_cases hb : b.image_url = some u
  · simp [apply_result, hb]
  · simp [apply_result, hb]

def sam : Birthday :=
  mk_birthday ⟨"Roe", "Sam", ⟨1985, 6, 2⟩, 'm', some "http://x/img.jpg"⟩

def s_sam : BirthdayDisplay :=
  { all_birthdays := [sam, jane], birthdays_today := [] }

/-- Witness for C2: a concrete state where the first record matches the
URL of the incoming result and the second does not. -/
theorem C2_data_received_pointwise_witness :
    s_sam.all_birthdays[0]? = some sam ∧
      (s_sam.update (.DataReceived (.ok ⟨[7]⟩) "http://x/img.jpg")).all_birthdays[0]? =
        some (if sam.image_url = some "http://x/img.jpg" then
          { sam with image_data := some (.ok ⟨[7]⟩) } else sam) :=
  ⟨by decide,
    C2_data_received_pointwise s_sam (.ok ⟨[7]⟩) "http://x/img.jpg" 0 sam (by decide)⟩

/-! ## C10 -/

/-- C10: processing a fetch result changes only the `image_data` cell of
records whose `image_url` equals the result's URL: the today subset, the
length of the record list and all other fields are untouched; a result
whose URL matches no record leaves the whole state unchanged; and an
`UpdateDay` message never touches the record list at all. -/
theorem C10_frame (s : BirthdayDisplay) (d : Except String Handle)
    (u : String) (t : NaiveDate) :
    (s.update (.DataReceived d u)).birthdays_today = s.birthdays_today ∧
      (s.update (.DataReceived d u)).all_birthdays.length =
        s.all_birthdays.length ∧
      (∀ (i : Nat) (x y : Birthday), s.all_birthdays[i]? = some x →
        (s.update (.DataReceived d u)).all_birthdays[i]? = some y →
        (y.last_name = x.last_name ∧ y.first_name = x.first_name ∧
          y.birthday = x.birthday ∧ y.gender = x.gender ∧
          y.image_url = x.image_url) ∧
        (x.image_url ≠ some u → y = x)) ∧
      ((∀ b ∈ s.all_birthdays, b.image_url ≠ some u) →
        s.update (.DataReceived d u) = s) ∧
      (s.update (.UpdateDay t)).all_birthdays = s.all_birthdays := by
  refine ⟨rfl, by simp [BirthdayDisplay.update], ?_, ?_, rfl⟩
  · intro i x y hx hy
    have hmap : (s.update (.DataReceived d u)).all_birthdays[i]? =
        (s.all_birthdays[i]?).map (apply_result d (some u)) := by
      show (s.all_birthdays.map (apply_result d (some u)))[i]? = _
      rw [List.getElem?_map]
    rw [hmap, hx] at hy
    simp only [Option.map_some'] at hy
    have hy2 : y = apply_result d (some u) x := by
      cases hy
      rfl
    subst hy2
    by_cases hbu : x.image_url = some u
    · simp [apply_result, hbu]
    · simp [apply_result, hbu]
  · intro hall
    show { s with all_birthdays :=
        s.all_birthdays.map (apply_result d (some u)) } = s
    have hmap : s.all_birthdays.map (apply_result d (some u)) =
        s.all_birthdays := by
      have h1 : s.all_birthdays.map (apply_result d (some u)) =
          s.all_birthdays.map id :=
        List.map_congr_left (fun b hb => by simp [apply_result, hall b hb])
      rw [h1, List.map_id]
    rw [hmap]

/-! ## C3 -/

theorem process_rows_fst (rows : List (Except String RowFields)) :
    (process_rows rows).1 = (rows.filterMap Except.toOption).map mk_birthday := by
  induction rows with
  | nil => rfl
  | cons r rest ih =>
    cases r with
    | ok v => simp [process_rows, Except.toOption, List.filterMap_cons, ih]
    | error err => simp [process_rows, Except.toOption, List.filterMap_cons, ih]

/-- C3: the loader returns exactly the well-formed rows, in file order; a
per-row decode failure never aborts the load, and only a failed file open
makes `get_birthdays` return an error. -/
theorem C3_get_birthdays (rows : List (Except String RowFields)) (e : String) :
    (get_birthdays (.ok rows)).1 =
        .ok ((rows.filterMap Except.toOption).map mk_birthday) ∧
      (get_birthdays (.error e)).1 = .error e :=
  ⟨congrArg Except.ok (process_rows_fst rows), rfl⟩

/-! ## C4 -/

/-- C4: every issued photo fetch resolves to exactly one of two outcomes
paired with the original URL: a success outcome yields `.ok` wrapping the
payload bytes in a handle, and every failure yields `.error` carrying the
single constant placeholder string. -/
theorem C4_request_outcomes (outcome : HttpOutcome) (url : String) :
    (request_birthday_image outcome url).2 = url ∧
      ((∃ bytes, outcome = .success bytes ∧
          (request_birthday_image outcome url).1 =
            .ok (Handle.from_memory bytes)) ∨
        ((∀ bytes, outcome ≠ .success bytes) ∧
          (request_birthday_image outcome url).1 =
            .error "[failed to load image]")) := by
  cases outcome with
  | success bytes => exact ⟨rfl, .inl ⟨bytes, rfl, rfl⟩⟩
  | send_error e => exact ⟨rfl, .inr ⟨fun b h => HttpOutcome.noConfusion h, rfl⟩⟩
  | status_error e => exact ⟨rfl, .inr ⟨fun b h => HttpOutcome.noConfusion h, rfl⟩⟩
  | bytes_error e => exact ⟨rfl, .inr ⟨fun b h => HttpOutcome.noConfusion h, rfl⟩⟩

/-! ## C7 -/

theorem reqwest_client_none_build (birthdays : List Birthday) :
    reqwest_client birthdays none = none := by
  unfold reqwest_client
  cases (loadable_elements birthdays).length with
  | zero => rfl
  | succ n => rfl

theorem run_all_birthdays_of_update_days (ms : List Message)
    (hms : ∀ m ∈ ms, ∃ t, m = Message.UpdateDay t) :
    ∀ s : BirthdayDisplay, (run s ms).all_birthdays = s.all_birthdays := by
  induction ms with
  | nil =>
    intro s
    rfl
  | cons m rest ih =>
    intro s
    obtain ⟨t, rfl⟩ := hms m (List.mem_cons_self m rest)
    have hstep : run s (Message.UpdateDay t :: rest) =
        run (s.update (.UpdateDay t)) rest := rfl
    rw [hstep, ih (fun m hm => hms m (List.mem_cons_of_mem _ hm))]
    rfl

/-- C7: when no record carries a photo URL no client is built and no
request is issued; when client construction fails no request is issued
either; and in a run where consequently only timer messages arrive, the
record list — and so every record's Unloaded photo state — is exactly the
loaded one for the whole run. -/
theorem C7_degraded_photo_phase (birthdays : List Birthday)
    (build : Option Client) (today : NaiveDate) (ms : List Message)
    (hms : ∀ m ∈ ms, ∃ t, m = Message.UpdateDay t) :
    ((∀ b ∈ birthdays, b.image_url = none) →
        reqwest_client birthdays build = none ∧
          startup_requests birthdays build = []) ∧
      startup_requests birthdays none = [] ∧
      (run (BirthdayDisplay.new birthdays today) ms).all_birthdays =
        birthdays := by
  refine ⟨?_, ?_, ?_⟩
  · intro hall
    have hempty : loadable_elements birthdays = [] := by
      unfold loadable_elements
      rw [List.filter_eq_nil_iff]
      intro b hb
      simp [hall b hb]
    constructor
    · unfold reqwest_client
      rw [hempty]
      rfl
    · unfold startup_requests reqwest_client
      rw [hempty]
      rfl
  · unfold startup_requests
    rw [reqwest_client_none_build]
  · rw [run_all_birthdays_of_update_days ms hms]
    rfl

/-- Witness for C7: one record without a URL, a failing client build and a
run consisting of one timer tick. -/
theorem C7_degraded_photo_phase_witness :
    (∀ m ∈ [Message.UpdateDay june1], ∃ t, m = Message.UpdateDay t) ∧
      (((∀ b ∈ [jane], b.image_url = none) →
          reqwest_client [jane] (some Client.mk) = none ∧
            startup_requests [jane] (some Client.mk) = []) ∧
        startup_requests [jane] none = [] ∧
        (run (BirthdayDisplay.new [jane] june1)
            [Message.UpdateDay june1]).all_birthdays = [jane]) :=
  ⟨fun m hm => ⟨june1, by rw [List.mem_singleton] at hm; exact hm⟩,
    C7_degraded_photo_phase [jane] (some Client.mk) june1 [Message.UpdateDay june1]
      (fun m hm => ⟨june1, by rw [List.mem_singleton] at hm; exact hm⟩)⟩

/-! ## C9 -/

/-- A record with its mutable photo cell cleared: what is immutable about
a record after construction. -/
def strip_image (b : Birthday) : Birthday := { b with image_data := none }

/-- Structural invariant of the display state relative to the records
loaded at startup. -/
def display_inv (birthdays : List Birthday) (s : BirthdayDisplay) : Prop :=
  (∀ i ∈ s.birthdays_today, i < s.all_birthdays.length) ∧
    s.birthdays_today.Pairwise (fun i j => i < j) ∧
    s.all_birthdays.length = birthdays.length ∧
    ∀ i : Nat, (s.all_birthdays[i]?).map strip_image =
      (birthdays[i]?).map strip_image

theorem display_inv_update_day (birthdays : List Birthday)
    (s : BirthdayDisplay) (t : NaiveDate) (h : display_inv birthdays s) :
    display_inv birthdays (s.update_day t) := by
  obtain ⟨h1, h2, h3, h4⟩ := h
  refine ⟨?_, ?_, h3, h4⟩
  · intro i hi
    rw [update_day_birthdays_today] at hi
    exact List.mem_range.mp (List.mem_filter.mp hi).1
  · rw [update_day_birthdays_today]
    exact (List.pairwise_lt_range _).filter _

theorem display_inv_update (birthdays : List Birthday) (s : BirthdayDisplay)
    (m : Message) (h : display_inv birthdays s) :
    display_inv birthdays (s.update m) := by
  cases m with
  | UpdateDay t => exact display_inv_update_day birthdays s t h
  | DataReceived d u =>
    obtain ⟨h1, h2, h3, h4⟩ := h
    have hlen : (s.update (.DataReceived d u)).all_birthdays.length =
        s.all_birthdays.length := by
      simp [BirthdayDisplay.update]
    refine ⟨?_, h2, ?_, ?_⟩
    · intro i hi
      rw [hlen]
      exact h1 i hi
    · rw [hlen]
      exact h3
    · intro i
      have key : ∀ x : Birthday,
          strip_image (apply_result d (some u) x) = strip_image x := by
        intro x
        unfold apply_result strip_image
        split
        · rfl
        · rfl
      have hmap : (s.update (.DataReceived d u)).all_birthdays[i]? =
          (s.all_birthdays[i]?).map (apply_result d (some u)) := by
        show (s.all_birthdays.map (apply_result d (some u)))[i]? = _
        rw [List.getElem?_map]
      rw [hmap, ← h4 i]
      cases s.all_birthdays[i]? with
      | none => rfl
      | some x => simp [key x]

theorem display_inv_run (birthdays : List Birthday) (ms : List Message) :
    ∀ s : BirthdayDisplay,
      display_inv birthdays s → display_inv birthdays (run s ms) := by
  induction ms with
  | nil =>
    intro s h
    exact h
  | cons m rest ih =>
    intro s h
    exact ih (s.update m) (display_inv_update birthdays s m h)

theorem display_inv_base (birthdays : List Birthday) :
    display_inv birthdays
      { all_birthdays := birthdays, birthdays_today := [] } := by
  refine ⟨?_, List.Pairwise.nil, rfl, fun i => rfl⟩
  intro i hi
  simp at hi

/-- C9: after construction and any sequence of messages, the today subset
is a list of in-bounds positions of the record list in strictly
increasing order — a subsequence of shared records — and the record list
itself keeps its length and every field except the mutable photo cell. -/
theorem C9_today_subset_invariant (birthdays : List Birthday)
    (today : NaiveDate) (ms : List Message) :
    (∀ i ∈ (run (BirthdayDisplay.new birthdays today) ms).birthdays_today,
        i < (run (BirthdayDisplay.new birthdays today) ms).all_birthdays.length) ∧
      (run (BirthdayDisplay.new birthdays today) ms).birthdays_today.Pairwise
        (fun i j => i < j) ∧
      (run (BirthdayDisplay.new birthdays today) ms).all_birthdays.length =
        birthdays.length ∧
      ∀ i : Nat,
        ((run (BirthdayDisplay.new birthdays today) ms).all_birthdays[i]?).map
            strip_image =
          (birthdays[i]?).map strip_image :=
  display_inv_run birthdays ms _
    (display_inv_update_day birthdays _ today (display_inv_base birthdays))

/-- Witness for C9: concrete two-record state after one result and one
tick. -/
theorem C9_today_subset_invariant_witness :
    (∀ i ∈ (run (BirthdayDisplay.new [sam, jane] june1)
          [Message.DataReceived (.ok ⟨[7]⟩) "http://x/img.jpg",
            Message.UpdateDay june1]).birthdays_today,
        i < (run (BirthdayDisplay.new [sam, jane] june1)
            [Message.DataReceived (.ok ⟨[7]⟩) "http://x/img.jpg",
              Message.UpdateDay june1]).all_birthdays.length) ∧
      (run (BirthdayDisplay.new [sam, jane] june1)
          [Message.DataReceived (.ok ⟨[7]⟩) "http://x/img.jpg",
            Message.UpdateDay june1]).birthdays_today.Pairwise
        (fun i j => i < j) ∧
      (run (BirthdayDisplay.new [sam, jane] june1)
          [Message.DataReceived (.ok ⟨[7]⟩) "http://x/img.jpg",
            Message.UpdateDay june1]).all_birthdays.length =
        ([sam, jane] : List Birthday).length ∧
      ∀ i : Nat,
        ((run (BirthdayDisplay.new [sam, jane] june1)
              [Message.DataReceived (.ok ⟨[7]⟩) "http://x/img.jpg",
                Message.UpdateDay june1]).all_birthdays[i]?).map strip_image =
          (([sam, jane] : List Birthday)[i]?).map strip_image :=
  C9_today_subset_invariant [sam, jane] june1
    [Message.DataReceived (.ok ⟨[7]⟩) "http://x/img.jpg",
      Message.UpdateDay june1]

/-! ## C5 -/

theorem writes_count_eq_count (b : Birthday) (u : String)
    (hu : b.image_url = some u) (ms : List Message) :
    writes_count b ms = (data_urls ms).count u := by
  induction ms with
  | nil => rfl
  | cons m rest ih =>
    cases m with
    | UpdateDay t =>
      show (List.filter (writes_to b) (Message.UpdateDay t :: rest)).length = _
      rw [List.filter_cons]
      have hf : writes_to b (Message.UpdateDay t) = false := rfl
      rw [hf, if_neg (by simp)]
      exact ih
    | DataReceived d url =>
      show (List.filter (writes_to b) (Message.DataReceived d url :: rest)).length = _
      rw [List.filter_cons]
      have hdu : data_urls (Message.DataReceived d url :: rest) =
          url :: data_urls rest := rfl
      rw [hdu, List.count_cons]
      have ih2 : (List.filter (writes_to b) rest).length =
          List.count u (data_urls rest) := ih
      by_cases h : url = u
      · have ht : writes_to b (Message.DataReceived d url) = true := by
          simp [writes_to, hu, h]
        rw [ht, if_pos rfl, List.length_cons, ih2]
        simp [h]
      · have hf : writes_to b (Message.DataReceived d url) = false := by
          simp only [writes_to, hu]
          simp
          exact fun heq => h heq.symm
        rw [hf, if_neg (by simp), ih2]
        simp [h]

theorem loadable_filterMap (birthdays : List Birthday) :
    (loadable_elements birthdays).filterMap (fun b => b.image_url) =
      birthdays.filterMap (fun b => b.image_url) := by
  unfold loadable_elements
  induction birthdays with
  | nil => rfl
  | cons b rest ih =>
    cases hb : b.image_url with
    | none => simp [List.filter_cons, List.filterMap_cons, hb, ih]
    | some u => simp [List.filter_cons, List.filterMap_cons, hb, ih]

theorem reqwest_client_some (birthdays : List Birthday) (c : Client)
    (hne : loadable_elements birthdays ≠ []) :
    reqwest_client birthdays (some c) = some c := by
  unfold reqwest_client
  cases h : (loadable_elements birthdays).length with
  | zero => exact absurd (List.length_eq_zero.mp h) hne
  | succ n => rfl

theorem startup_requests_some (birthdays : List Birthday) (c : Client)
    (hne : loadable_elements birthdays ≠ []) :
    startup_requests birthdays (some c) =
      birthdays.filterMap (fun b => b.image_url) := by
  unfold startup_requests
  rw [reqwest_client_some birthdays c hne]
  show (loadable_elements birthdays).filterMap (fun b => b.image_url) = _
  exact loadable_filterMap birthdays

def rec_share_a : Birthday :=
  mk_birthday ⟨"A", "A", ⟨2000, 1, 1⟩, 'm', some "http://x/i.jpg"⟩

def rec_share_b : Birthday :=
  mk_birthday ⟨"B", "B", ⟨2001, 2, 2⟩, 'f', some "http://x/i.jpg"⟩

/-- C5 counterexample: two records share one photo URL, so the startup
phase issues two requests for that URL and each arriving result is
applied to both records: the first record is written twice — the second
write hits a record already in Loaded state and turns it into Failed —
refuting "mutated exactly once" and "a record in Loaded or Failed state
is never written again". -/
theorem C5_counterexample :
    startup_requests [rec_share_a, rec_share_b] (some Client.mk) =
        ["http://x/i.jpg", "http://x/i.jpg"] ∧
      writes_count rec_share_a
          [Message.DataReceived (.ok ⟨[7]⟩) "http://x/i.jpg",
            Message.DataReceived (.error "[failed to load image]")
              "http://x/i.jpg"] = 2 ∧
      (run (BirthdayDisplay.new [rec_share_a, rec_share_b] ⟨2024, 3, 3⟩)
            [Message.DataReceived (.ok ⟨[7]⟩) "http://x/i.jpg"]).all_birthdays.map
          Birthday.image_data = [some (.ok ⟨[7]⟩), some (.ok ⟨[7]⟩)] ∧
      (run (BirthdayDisplay.new [rec_share_a, rec_share_b] ⟨2024, 3, 3⟩)
            [Message.DataReceived (.ok ⟨[7]⟩) "http://x/i.jpg",
              Message.DataReceived (.error "[failed to load image]")
                "http://x/i.jpg"]).all_birthdays.map
          Birthday.image_data =
        [some (.error "[failed to load image]"),
          some (.error "[failed to load image]")] := by
  refine ⟨by decide, by decide, by decide, by decide⟩

/-- C5 amended: photo state starts Unloaded and each record is written
once per issued request whose URL matches its own — hence exactly once
when no two records share a photo URL — and a write only installs a
Loaded or Failed value, never Unloaded, so a record never reverts to
Unloaded. -/
theorem C5_amended_single_write (birthdays : List Birthday) (c : Client)
    (ms : List Message) (b : Birthday) (u : String)
    (hnodup : (birthdays.filterMap (fun b => b.image_url)).Nodup)
    (htrace : (data_urls ms).Perm (startup_requests birthdays (some c)))
    (hb : b ∈ birthdays) (hu : b.image_url = some u) :
    writes_count b ms = 1 ∧
      ∀ (s : BirthdayDisplay) (m : Message) (i : Nat) (x y : Birthday),
        s.all_birthdays[i]? = some x →
        (s.update m).all_birthdays[i]? = some y →
        y.image_data = none → x.image_data = none := by
  constructor
  · have hmem : b ∈ loadable_elements birthdays := by
      unfold loadable_elements
      rw [List.mem_filter]
      exact ⟨hb, by simp [hu]⟩
    have hne : loadable_elements birthdays ≠ [] := by
      intro h0
      rw [h0] at hmem
      cases hmem
    calc writes_count b ms = (data_urls ms).count u :=
          writes_count_eq_count b u hu ms
      _ = (startup_requests birthdays (some c)).count u := htrace.count_eq u
      _ = (birthdays.filterMap (fun b => b.image_url)).count u := by
          rw [startup_requests_some birthdays c hne]
      _ = 1 := List.count_eq_one_of_mem hnodup
          (List.mem_filterMap.mpr ⟨b, hb, hu⟩)
  · intro s m i x y hx hy hnone
    cases m with
    | UpdateDay t =>
      have hsame : (s.update (.UpdateDay t)).all_birthdays =
          s.all_birthdays := rfl
      rw [hsame, hx] at hy
      cases hy
      exact hnone
    | DataReceived d url =>
      have hmap : (s.update (.DataReceived d url)).all_birthdays[i]? =
          (s.all_birthdays[i]?).map (apply_result d (some url)) := by
        show (s.all_birthdays.map (apply_result d (some url)))[i]? = _
        rw [List.getElem?_map]
      rw [hmap, hx] at hy
      simp only [Option.map_some'] at hy
      have hy2 : y = apply_result d (some url) x := by
        cases hy
        rfl
      subst hy2
      by_cases hbu : x.image_url = some url
      · simp [apply_result, hbu] at hnone
      · simpa [apply_result, hbu] using hnone

/-- Witness for C5 amended: one record, one matching request, one arriving
result. -/
theorem C5_amended_single_write_witness :
    writes_count sam [Message.DataReceived (.ok ⟨[7]⟩) "http://x/img.jpg"] = 1 ∧
      ∀ (s : BirthdayDisplay) (m : Message) (i : Nat) (x y : Birthday),
        s.all_birthdays[i]? = some x →
        (s.update m).all_birthdays[i]? = some y →
        y.image_data = none → x.image_data = none :=
  C5_amended_single_write [sam] Client.mk
    [Message.DataReceived (.ok ⟨[7]⟩) "http://x/img.jpg"] sam "http://x/img.jpg"
    (by decide) (by decide) (by decide) (by decide)

/-! ## C6 -/

/-- Whether a row's structured decode failed. -/
def row_failed : Except String RowFields → Bool
  | .error _ => true
  | .ok _ => false

theorem process_rows_snd_length (rows : List (Except String RowFields)) :
    (process_rows rows).2.length = (rows.filter row_failed).length := by
  induction rows with
  | nil => rfl
  | cons r rest ih =>
    cases r with
    | ok v => simp [process_rows, List.filter_cons, row_failed, ih]
    | error err => simp [process_rows, List.filter_cons, row_failed, ih]

/-- C6 counterexample: the program has no quiet configuration — the string
"--quiet" in argument position is consumed as the CSV file path — and the
loader emits its per-line diagnostic unconditionally, so a load of one
malformed row under the alleged quiet configuration still emits one
diagnostic, refuting "under the quiet configuration zero parse
diagnostics are emitted". -/
theorem C6_counterexample :
    parse_args ["birthday_display", "--quiet"] = CliAction.load "--quiet" ∧
      (get_birthdays (.ok [.error "bad line"])).2 =
        ["error reading line: bad line"] := by
  refine ⟨by decide, by decide⟩

/-- C6 amended: a load of a file with M malformed rows always emits
exactly M per-line parse diagnostics to the error channel; no quiet
configuration exists (the token "--quiet" is treated as the file path),
so the diagnostics cannot be suppressed. -/
theorem C6_amended_diagnostics (rows : List (Except String RowFields)) :
    (get_birthdays (.ok rows)).2.length = (rows.filter row_failed).length ∧
      parse_args ["birthday_display", "--quiet"] = CliAction.load "--quiet" :=
  ⟨process_rows_snd_length rows, by decide⟩
